import Mathlib

set_option maxHeartbeats 1000000

/-! Shallow embedding of the tectonic plate core (`plate.cpp`) and proofs
about it.

Heights are modelled as exact rationals (C `float`), timestamps and
coordinates as naturals (C `uint32_t`), with explicit `% 2^32` where the
source relies on unsigned wrap-around.  Collaborator components whose
implementation is not part of the available source (`Bounds`, `Segments`,
`Movement`, `calculateCrust`, `MassBuilder`) are modelled from the
specification; each such definition says so in its doc comment. -/

/-- Modulus of C `uint32_t` arithmetic. -/
def u32 : ℕ := 2 ^ 32

/-- C `uint32_t` subtraction `a - b` (wrap-around modulo `2^32`). -/
def u32sub (a b : ℕ) : ℕ := (a % u32 + (u32 - b % u32)) % u32

/-- C cast of a nonnegative `float` to `uint32_t`: truncation toward zero,
which is the floor for nonnegative values. -/
def u32cast (q : ℚ) : ℕ := (⌊q⌋).toNat

/-- Modelled from the spec (§3 Segments): per-continent record
with bounding box, cell count, collision counter and existence flag. -/
structure SegmentData where
  x0 : ℕ
  y0 : ℕ
  x1 : ℕ
  y1 : ℕ
  area : ℕ
  collCount : ℕ
  alive : Bool
deriving DecidableEq, Repr

/-- Modelled from the spec: `SegmentData::isEmpty`, the §4.5 step 2 test
`data[s].area == 0`. -/
def SegmentData.isEmpty (d : SegmentData) : Bool := d.area == 0

/-- Modelled from the spec: `SegmentData::markNonExistent` (§4.5 step 7).
Spec §4.5 step 2 treats `data[s].area == 0` as "already emptied" and §8
property 7 requires a second aggregation of the same continent to return
`0`, so marking a segment non-existent clears its area together with its
existence flag. -/
def SegmentData.markNonExistent (d : SegmentData) : SegmentData :=
  { d with area := 0, alive := false }

/-- Modelled from the spec: `SegmentData::incArea` (§4.6). -/
def SegmentData.incArea (d : SegmentData) : SegmentData :=
  { d with area := d.area + 1 }

/-- Modelled from the spec: `SegmentData::enlarge_to_contain` (§4.6,
"expands its bounding box to contain `(x, y)`"). -/
def SegmentData.enlarge_to_contain (d : SegmentData) (x y : ℕ) : SegmentData :=
  { d with x0 := min d.x0 x, x1 := max d.x1 x, y0 := min d.y0 y, y1 := max d.y1 y }

/-- Modelled from the spec: the per-segment effect of `Segments::shift`
(§4.2 step 6, "shift every segment's bounding box by `(d_lft, d_top)`"). -/
def SegmentData.shiftBox (d : SegmentData) (dx dy : ℕ) : SegmentData :=
  { d with x0 := d.x0 + dx, x1 := d.x1 + dx, y0 := d.y0 + dy, y1 := d.y1 + dy }

/-- Unassigned segment-id sentinel `0xFFFFFFFF` (`memset(tmps, 255, ...)`). -/
def noContinent : ℕ := u32 - 1

/-- State of a `plate`: world dimensions, plate rectangle (origin and size),
height and age grids, segment bookkeeping, the tracked mass scalar, and the
`Movement` velocity vector (collaborator, modelled from the spec).  Grids
are indexed by the local index `ly * width + lx`. -/
structure Plate where
  wdW : ℕ
  wdH : ℕ
  left : ℕ
  top : ℕ
  width : ℕ
  height : ℕ
  map : ℕ → ℚ
  age_map : ℕ → ℕ
  segId : ℕ → ℕ
  segData : ℕ → SegmentData
  mass : ℚ
  velX : ℚ
  velY : ℚ

/-- Toroidal translation of a world coordinate `x` to a local offset from
the plate edge `l` in a world of size `W`. -/
def locx (W l x : ℕ) : ℕ := (x % W + (W - l)) % W

/-- Modelled from the spec (§3, `Bounds::getMapIndex`): translate world
coordinates to local ones, toroidal-wrap aware; `none` when the cell lies
outside the plate rectangle.  Returns the local coordinates `(lx, ly)`. -/
def Plate.getLocal (p : Plate) (x y : ℕ) : Option (ℕ × ℕ) :=
  let lx := locx p.wdW p.left x
  let ly := locx p.wdH p.top y
  if lx < p.width ∧ ly < p.height then some (lx, ly) else none

/-- `Bounds::getMapIndex`: the local index of a world cell, with `none`
standing for `BAD_INDEX`. -/
def Plate.getMapIndex (p : Plate) (x y : ℕ) : Option ℕ :=
  (p.getLocal x y).map fun c => c.2 * p.width + c.1

/-- `plate::getCrust` (lines 487-491): height at a world cell, `0` outside
the plate. -/
def Plate.getCrust (p : Plate) (x y : ℕ) : ℚ :=
  match p.getMapIndex x y with
  | some index => p.map index
  | none => 0

/-- `plate::getCrustTimestamp` (lines 493-497). -/
def Plate.getCrustTimestamp (p : Plate) (x y : ℕ) : ℕ :=
  match p.getMapIndex x y with
  | some index => p.age_map index
  | none => 0

/-- Tail of `plate::setCrust` (lines 621-632): age update through the
bit-mask idiom, mass adjustment, and overwrite of the height, at an already
resolved index and with `z` already clamped to be nonnegative. -/
def Plate.setCrustAt (p : Plate) (index : ℕ) (z : ℚ) (t : ℕ) : Plate :=
  let t' := if 0 < p.map index then
      u32cast ((p.map index * p.age_map index + z * t) / (p.map index + z))
    else t
  { p with
    age_map := Function.update p.age_map index (if 0 < z then t' else p.age_map index)
    mass := p.mass - p.map index + z
    map := Function.update p.map index z }

/-- The growth amounts `(d_lft, d_rgt, d_top, d_btm)` that `plate::setCrust`
computes (lines 540-577) when the target world cell lies outside the plate
rectangle: wrap-aware `uint32` distances to the four edges, keeping only the
smaller axis distance (ties toward right/bottom), padding up to a multiple
of 8, and capping so the plate never exceeds the world. -/
def Plate.reframeDeltas (p : Plate) (x0 y0 : ℕ) : ℕ × ℕ × ℕ × ℕ :=
  let W := p.wdW
  let H := p.wdH
  let ilft := p.left
  let itop := p.top
  let irgt := p.left + p.width
  let ibtm := p.top + p.height
  let x := x0 % W
  let y := y0 % H
  let dist_lft := u32sub ilft x
  let dist_rgt := u32sub ((if x < ilft then W else 0) + x) irgt
  let dist_top := u32sub itop y
  let dist_btm := u32sub ((if y < itop then H else 0) + y) ibtm
  let d_lft0 := if dist_lft < dist_rgt ∧ dist_lft < W then dist_lft else 0
  let d_rgt0 := if dist_rgt ≤ dist_lft ∧ dist_rgt < W then dist_rgt else 0
  let d_top0 := if dist_top < dist_btm ∧ dist_top < H then dist_top else 0
  let d_btm0 := if dist_btm ≤ dist_top ∧ dist_btm < H then dist_btm else 0
  let d_lft1 := ((if 0 < d_lft0 then 1 else 0) + d_lft0 / 8) * 8
  let d_rgt1 := ((if 0 < d_rgt0 then 1 else 0) + d_rgt0 / 8) * 8
  let d_top1 := ((if 0 < d_top0 then 1 else 0) + d_top0 / 8) * 8
  let d_btm1 := ((if 0 < d_btm0 then 1 else 0) + d_btm0 / 8) * 8
  let hcap := p.width + d_lft1 + d_rgt1 > W
  let d_lft2 := if hcap then 0 else d_lft1
  let d_rgt2 := if hcap then W - p.width else d_rgt1
  let vcap := p.height + d_top1 + d_btm1 > H
  let d_top2 := if vcap then 0 else d_top1
  let d_btm2 := if vcap then H - p.height else d_btm1
  (d_lft2, d_rgt2, d_top2, d_btm2)

/-- The copy loop of the reframe path (lines 595-606): a grid of width
`newW` whose window `[dl, dl + w) × [dt, dt + h)` holds the old `w`-wide
grid `f` and whose remaining cells hold the fill value `z` the new buffers
were initialised with. -/
def regrid {α : Type} (w newW dl dt h : ℕ) (f : ℕ → α) (z : α) : ℕ → α :=
  fun idx =>
    let cx := idx % newW
    let cy := idx / newW
    if dl ≤ cx ∧ cx < dl + w ∧ dt ≤ cy ∧ cy < dt + h then
      f ((cy - dt) * w + (cx - dl))
    else z

/-- The plate state produced by the reframe path of `plate::setCrust`
(lines 582-613) for growth amounts `(d_lft, d_rgt, d_top, d_btm)`: the
rectangle grows, its origin shifts by `(-d_lft, -d_top)` wrapped into the
world (spec §4.8), the new grids hold `0` heights, `0` ages and sentinel
ids except for the old grids copied in at offset `(d_lft, d_top)`, and all
segment bounding boxes are shifted. -/
def Plate.reframed (p : Plate) (d_lft d_rgt d_top d_btm : ℕ) : Plate :=
  let newW := p.width + d_lft + d_rgt
  let newH := p.height + d_top + d_btm
  { p with
    left := (p.left + p.wdW - d_lft) % p.wdW
    top := (p.top + p.wdH - d_top) % p.wdH
    width := newW
    height := newH
    map := regrid p.width newW d_lft d_top p.height p.map 0
    age_map := regrid p.width newW d_lft d_top p.height p.age_map 0
    segId := regrid p.width newW d_lft d_top p.height p.segId noContinent
    segData := fun s => (p.segData s).shiftBox d_lft d_top }

/-- Reframe step of `plate::setCrust` (lines 540-613); `none` models the
"nowhere to grow" assertion (line 580). -/
def Plate.reframe (p : Plate) (x0 y0 : ℕ) : Option Plate :=
  let d := p.reframeDeltas x0 y0
  if d.1 + d.2.1 + d.2.2.1 + d.2.2.2 = 0 then none
  else some (p.reframed d.1 d.2.1 d.2.2.1 d.2.2.2)

/-- Resolution step of `plate::setCrust`: the state the write happens on
(reframed when the target is outside) together with the index written to.
`z` is the already clamped amount; `none` models the assertions (extending
the plate for nothing, nowhere to grow, target still unresolvable). -/
def Plate.setCrustResolve (p : Plate) (x y : ℕ) (z : ℚ) : Option (Plate × ℕ) :=
  match p.getMapIndex x y with
  | some index => some (p, index)
  | none =>
    if z ≤ 0 then none
    else
      match p.reframe x y with
      | none => none
      | some q =>
        match q.getMapIndex x y with
        | some index => some (q, index)
        | none => none

/-- `plate::setCrust` (lines 525-633), also returning the index written. -/
def Plate.setCrustCore (p : Plate) (x y : ℕ) (z : ℚ) (t : ℕ) : Option (Plate × ℕ) :=
  let z' := if z < 0 then 0 else z
  (p.setCrustResolve x y z').map fun s => (s.1.setCrustAt s.2 z' t, s.2)

/-- `plate::setCrust` (lines 525-633). -/
def Plate.setCrust (p : Plate) (x y : ℕ) (z : ℚ) (t : ℕ) : Option Plate :=
  (p.setCrustCore x y z t).map Prod.fst

/-- `plate::addCrustByCollision` (lines 95-106): deposit `z` on top of the
present crust via `setCrust`, then assign the cell to `activeContinent`,
growing that segment's area and bounding box. -/
def Plate.addCrustByCollision (p : Plate) (x y : ℕ) (z : ℚ) (time : ℕ)
    (activeContinent : ℕ) : Option Plate :=
  match p.setCrust x y (p.getCrust x y + z) time with
  | none => none
  | some q =>
    match q.getLocal x y with
    | none => none
    | some c =>
      let index := c.2 * q.width + c.1
      let q1 := { q with segId := Function.update q.segId index activeContinent }
      let d := ((q1.segData activeContinent).incArea).enlarge_to_contain c.1 c.2
      some { q1 with segData := Function.update q1.segData activeContinent d }

/-- `plate::selectCollisionSegment` (lines 635-640). -/
def Plate.selectCollisionSegment (p : Plate) (coll_x coll_y : ℕ) : Option ℕ :=
  (p.getMapIndex coll_x coll_y).map fun index => p.segId index

/-- One iteration of the transfer loop of `plate::aggregateCrust`
(lines 200-214): if the cell belongs to segment `seg` and carries crust,
move its crust and age onto the destination plate and zero it here. -/
def aggStep (seg ac wx1 wy1 lx ly : ℕ) (st : Plate × Plate) (c : ℕ × ℕ) :
    Option (Plate × Plate) :=
  let a := st.1
  let b := st.2
  let i := c.2 * a.width + c.1
  if a.segId i = seg ∧ 0 < a.map i then
    match b.addCrustByCollision (wx1 + c.1 - lx) (wy1 + c.2 - ly)
        (a.map i) (a.age_map i) ac with
    | none => none
    | some b' =>
      some ({ a with mass := a.mass - a.map i, map := Function.update a.map i 0 }, b')
  else some st

/-- The cells enumerated by the nested transfer loop of
`plate::aggregateCrust`: `y` from the segment's top to bottom and `x` from
its left to right, both inclusive. -/
def segCells (d : SegmentData) : List (ℕ × ℕ) :=
  (List.range' d.y0 (d.y1 + 1 - d.y0)).flatMap fun y =>
    (List.range' d.x0 (d.x1 + 1 - d.x0)).map fun x => (x, y)

/-- The transfer loop of `plate::aggregateCrust` (lines 200-214), threading
the two plate states through `aggStep` and failing if any step fails. -/
def aggFold (seg ac wx1 wy1 lx ly : ℕ) (cs : List (ℕ × ℕ))
    (st0 : Option (Plate × Plate)) : Option (Plate × Plate) :=
  cs.foldl (fun ost c => ost.bind fun st => aggStep seg ac wx1 wy1 lx ly st c) st0

/-- Line 216 of `plate::aggregateCrust`: mark segment `seg` non-existent. -/
def aggMark (a : Plate) (seg : ℕ) : Plate :=
  { a with segData :=
      Function.update a.segData seg ((a.segData seg).markNonExistent) }

/-- `plate::aggregateCrust` (lines 159-218): transfer the whole continent
under world cell `(wx, wy)` from `a` onto `b`; returns the updated plates
and the amount of transferred crust. -/
def Plate.aggregateCrust (a : Plate) (b : Plate) (wx wy : ℕ) :
    Option (Plate × Plate × ℚ) :=
  match a.getLocal wx wy with
  | none => none
  | some lc =>
    let index := lc.2 * a.width + lc.1
    let seg := a.segId index
    if (a.segData seg).isEmpty then some (a, b, 0)
    else
      match b.getMapIndex wx wy with
      | none => none
      | some bindex =>
        let ac := b.segId bindex
        let wx1 := wx + a.wdW
        let wy1 := wy + a.wdH
        let old_mass := a.mass
        match aggFold seg ac wx1 wy1 lc.1 lc.2 (segCells (a.segData seg))
            (some (a, b)) with
        | none => none
        | some st =>
          let a' := aggMark st.1 seg
          some (a', st.2, old_mass - a'.mass)

/-- `plate::addCrustBySubduction` lines 136-138: the random perturbation
scalar, written in the source as `offset *= offset * offset * offset_sign`. -/
def subductionOffset (offset offset_sign : ℚ) : ℚ :=
  offset * (offset * offset * offset_sign)

/-- `plate::addCrustBySubduction` lines 139-140: the empirical displacement
`dx = 10 * dx + 3 * offset`, `dy = 10 * dy + 3 * offset`, with the same
scalar `offset` on both axes. -/
def subductionDisplace (dx dy offset : ℚ) : ℚ × ℚ :=
  (10 * dx + 3 * offset, 10 * dy + 3 * offset)

/-- Modelled from the spec (§4.3 step 1, §6 `Movement`): the component of
`(dx, dy)` aligned with the plate's motion, and subtraction of the plate's
own velocity when both move in more or less the same direction. -/
def Plate.relativeVelocity (p : Plate) (dx dy : ℚ) : ℚ × ℚ :=
  let dotv := p.velX * dx + p.velY * dy
  (dx - (if 0 < dotv then p.velX else 0), dy - (if 0 < dotv then p.velY else 0))

/-- The displaced deposit target `(fx, fy)` of `plate::addCrustBySubduction`
(lines 127-143), starting from resolved local coordinates `(lx, ly)` and the
two RNG draws. -/
def Plate.subductionTarget (p : Plate) (lx ly : ℕ) (dx dy offset0 : ℚ)
    (rnd : ℕ) : ℚ × ℚ :=
  let rv := p.relativeVelocity dx dy
  let offset_sign : ℚ := 2 * ((rnd % 2 : ℕ) : ℚ) - 1
  let off := subductionOffset offset0 offset_sign
  let disp := subductionDisplace rv.1 rv.2 off
  ((lx : ℚ) + disp.1, (ly : ℚ) + disp.2)

/-- `plate::addCrustBySubduction` (lines 108-157).  The two RNG draws are
passed in explicitly: `offset0 = next_double() ∈ [0,1)` and `rnd = next()`;
`none` models the entry `getValidMapIndex` assertion. -/
def Plate.addCrustBySubduction (p : Plate) (x y : ℕ) (z : ℚ) (t : ℕ)
    (dx dy : ℚ) (offset0 : ℚ) (rnd : ℕ) : Option Plate :=
  match p.getLocal x y with
  | none => none
  | some lc =>
    let ft := p.subductionTarget lc.1 lc.2 dx dy offset0 rnd
    let fx := ft.1
    let fy := ft.2
    if 0 ≤ fx ∧ fx < p.width ∧ 0 ≤ fy ∧ fy < p.height then
      let index := u32cast fy * p.width + u32cast fx
      if 0 < p.map index then
        let t' := u32cast ((p.map index * p.age_map index + z * t) / (p.map index + z))
        some { p with
          age_map := Function.update p.age_map index (if 0 < z then t' else 0)
          map := Function.update p.map index (p.map index + z)
          mass := p.mass + z }
      else some p
    else some p

/-- Modelled from the spec (§4.7): `calculateCrust` "returns each
neighbour's height *or 0 if that direction is off the plate*", with
wrap-aware neighbour selection (a direction can wrap only when the plate
spans the whole world in that axis).  Returns the west, east, north and
south neighbour crusts. -/
def Plate.calculateCrust (p : Plate) (x y : ℕ) : ℚ × ℚ × ℚ × ℚ :=
  let wOk := 0 < x ∨ p.width = p.wdW
  let eOk := x < p.width - 1 ∨ p.width = p.wdW
  let nOk := 0 < y ∨ p.height = p.wdH
  let sOk := y < p.height - 1 ∨ p.height = p.wdH
  let wi := y * p.width + (x + p.width - 1) % p.width
  let ei := y * p.width + (x + 1) % p.width
  let ni := ((y + p.height - 1) % p.height) * p.width + x
  let si := ((y + 1) % p.height) * p.width + x
  (if wOk then p.map wi else 0,
   if eOk then p.map ei else 0,
   if nOk then p.map ni else 0,
   if sOk then p.map si else 0)

/-- The push condition of `plate::findRiverSources` at local cell `(x, y)`
(lines 251-266): at least `lower_bound` high and no zero among the four
neighbour crusts. -/
def Plate.riverSourceAt (p : Plate) (lower_bound : ℚ) (x y : ℕ) : Bool :=
  if p.map (y * p.width + x) < lower_bound then false
  else if (p.calculateCrust x y).1 * (p.calculateCrust x y).2.1 *
      (p.calculateCrust x y).2.2.1 * (p.calculateCrust x y).2.2.2 = 0 then false
  else true

/-- `plate::findRiverSources` (lines 244-269): indices of all cells passing
`riverSourceAt`, pushed in row-major order. -/
def Plate.findRiverSources (p : Plate) (lower_bound : ℚ) : List ℕ :=
  (List.range p.height).flatMap fun y =>
    (List.range p.width).filterMap fun x =>
      if p.riverSourceAt lower_bound x y then some (y * p.width + x) else none

/-- Error reported by the `plate` constructor. -/
inductive PlateError where
  | invalidArgument (msg : String)
deriving DecidableEq

/-- `plate::plate` (lines 38-81): argument checks, grid copy, age
initialisation `plate_age & -(m[k] > 0)`, mass built from the height field
(`MassBuilder`, collaborator: spec §3 "cached scalar `sum(map)`"), all
segment ids unassigned.  The height buffer is `none` for C `NULL`; the
movement seeded from the RNG is a collaborator whose drawn velocity is
passed in. -/
def plateNew (m : Option (ℕ → ℚ)) (w h x y plate_age : ℕ) (wdW wdH : ℕ)
    (vX vY : ℚ) : Except PlateError Plate :=
  match m with
  | none => .error (.invalidArgument "the given heightmap should not be null")
  | some mf =>
    if w = 0 ∨ h = 0 then
      .error (.invalidArgument
        "width and height of the plate should be greater than zero")
    else if (x < 0 ∨ y < 0 : Prop) then
      .error (.invalidArgument
        "coordinates of the plate should be greater or equal to zero")
    else if (plate_age < 0 : Prop) then
      .error (.invalidArgument
        "age of the plate should be greater or equal to zero")
    else
      .ok { wdW := wdW, wdH := wdH, left := x, top := y, width := w, height := h,
            map := fun k => if k < w * h then mf k else 0,
            age_map := fun k => if k < w * h ∧ 0 < mf k then plate_age else 0,
            segId := fun _ => noContinent,
            segData := fun _ => ⟨0, 0, 0, 0, 0, 0, false⟩,
            mass := ∑ k ∈ Finset.range (w * h), mf k,
            velX := vX, velY := vY }

/-- Geometry and sign invariants of a well-formed plate state: nonnegative
heights (spec §3, "`f32` ≥ 0"), origin inside the world (spec §4.8) and a
rectangle no larger than the world (spec §4.2 step 4). -/
def PlateWF (p : Plate) : Prop :=
  (∀ i, 0 ≤ p.map i) ∧ p.left < p.wdW ∧ p.top < p.wdH ∧
    p.width ≤ p.wdW ∧ p.height ≤ p.wdH

/-- Relation between the pre- and post-states of a prefix of the
`aggregateCrust` transfer loop: total mass is conserved, the source plate's
mass never increases and its geometry and segment bookkeeping are untouched,
and its heights are only ever zeroed. -/
def AggInv (st st' : Plate × Plate) : Prop :=
  st'.1.mass + st'.2.mass = st.1.mass + st.2.mass ∧
  st'.1.mass ≤ st.1.mass ∧
  st'.2.wdW = st.2.wdW ∧ st'.2.wdH = st.2.wdH ∧
  st'.1.wdW = st.1.wdW ∧ st'.1.wdH = st.1.wdH ∧
  st'.1.left = st.1.left ∧ st'.1.top = st.1.top ∧
  st'.1.width = st.1.width ∧ st'.1.height = st.1.height ∧
  st'.1.segId = st.1.segId ∧ st'.1.segData = st.1.segData ∧
  (∀ i, st'.1.map i = st.1.map i ∨ st'.1.map i = 0)

/-- Concrete 3×3 plate in a 10×10 world at origin `(2, 2)` with a single
crust cell of height `1` and age `5` at world `(3, 3)` (spec scenario S1),
whose crust cell forms continent `0`. -/
def plateA : Plate :=
  { wdW := 10, wdH := 10, left := 2, top := 2, width := 3, height := 3,
    map := fun k => if k = 4 then 1 else 0,
    age_map := fun k => if k = 4 then 5 else 0,
    segId := fun k => if k = 4 then 0 else noContinent,
    segData := fun s => if s = 0 then ⟨1, 1, 1, 1, 1, 0, true⟩
      else ⟨0, 0, 0, 0, 0, 0, false⟩,
    mass := 1, velX := 0, velY := 0 }

/-- Concrete all-ocean 3×3 plate in a 10×10 world at origin `(2, 2)`
(spec scenario S4's destination plate). -/
def plateB : Plate :=
  { wdW := 10, wdH := 10, left := 2, top := 2, width := 3, height := 3,
    map := fun _ => 0, age_map := fun _ => 0,
    segId := fun _ => noContinent,
    segData := fun _ => ⟨0, 0, 0, 0, 0, 0, false⟩,
    mass := 0, velX := 0, velY := 0 }

/-- Concrete 3×3 plate whose nine cells all have height `1`. -/
def plateFlat : Plate :=
  { plateA with map := fun k => if k < 9 then 1 else 0, mass := 9 }

/-! Helper lemmas. -/

theorem clamp_eq_max (z : ℚ) : (if z < 0 then 0 else z) = max z 0 := by
  rcases lt_or_le z 0 with h | h
  · rw [if_pos h, max_eq_right h.le]
  · rw [if_neg (not_lt.mpr h), max_eq_left h]

theorem u32cast_le (q : ℚ) (n : ℕ) (h : q ≤ (n : ℚ)) : u32cast q ≤ n := by
  unfold u32cast
  have h2 : ⌊q⌋ ≤ ⌊((n : ℚ))⌋ := Int.floor_le_floor h
  rw [Int.floor_natCast] at h2
  exact Int.toNat_le.mpr h2

theorem le_u32cast (q : ℚ) (n : ℕ) (h : (n : ℚ) ≤ q) : n ≤ u32cast q := by
  unfold u32cast
  have h2 : (n : ℤ) ≤ ⌊q⌋ := Int.le_floor.mpr (by exact_mod_cast h)
  exact (Int.le_toNat ((Int.natCast_nonneg n).trans h2)).mpr h2

theorem wavg_bounds (m : ℚ) (a t : ℕ) (z : ℚ) (hm : 0 < m) (hz : 0 < z) :
    min a t ≤ u32cast ((m * a + z * t) / (m + z)) ∧
      u32cast ((m * a + z * t) / (m + z)) ≤ max a t := by
  have hd : 0 < m + z := by linarith
  have hmina : ((min a t : ℕ) : ℚ) ≤ (a : ℚ) := by exact_mod_cast min_le_left a t
  have hmint : ((min a t : ℕ) : ℚ) ≤ (t : ℚ) := by exact_mod_cast min_le_right a t
  have hmaxa : (a : ℚ) ≤ ((max a t : ℕ) : ℚ) := by exact_mod_cast le_max_left a t
  have hmaxt : (t : ℚ) ≤ ((max a t : ℕ) : ℚ) := by exact_mod_cast le_max_right a t
  constructor
  · refine le_u32cast _ _ ?_
    rw [le_div_iff₀ hd]
    nlinarith
  · refine u32cast_le _ _ ?_
    rw [div_le_iff₀ hd]
    nlinarith

/-! Claim theorems: constructor and subduction. -/

/-- C3: if the heights buffer is null or either dimension is zero, the
`plate` constructor reports `InvalidArgument` to the caller and no plate is
constructed (the result is an error, not a plate). -/
theorem plateNew_invalid (m : Option (ℕ → ℚ)) (w h x y plate_age wdW wdH : ℕ)
    (vX vY : ℚ) (hbad : m = none ∨ w = 0 ∨ h = 0) :
    ∃ msg, plateNew m w h x y plate_age wdW wdH vX vY =
      .error (.invalidArgument msg) := by
  cases m with
  | none => exact ⟨_, rfl⟩
  | some mf =>
    have hwh : w = 0 ∨ h = 0 := by
      rcases hbad with hc | hc
      · exact absurd hc (by simp)
      · exact hc
    refine ⟨"width and height of the plate should be greater than zero", ?_⟩
    simp only [plateNew]
    rw [if_pos hwh]

/-- Witness for C3 at a concrete input: the null buffer is rejected. -/
theorem plateNew_invalid_witness :
    ∃ msg, plateNew none 3 3 2 2 5 10 10 0 0 = .error (.invalidArgument msg) :=
  plateNew_invalid none 3 3 2 2 5 10 10 0 0 (Or.inl rfl)

/-- C7 counterexample: at draw `offset = 1/2` with positive sign, the
perturbation scalar computed by `offset *= offset * offset * offset_sign`
is `(1/2)³ = 1/8`, not `sign · offset⁴ = 1/16` as the claim states. -/
theorem subductionOffset_counterexample :
    subductionOffset (1/2) 1 ≠ 1 * (1/2 : ℚ) ^ 4 ∧
      subductionOffset (1/2) 1 = ((1/2 : ℚ)) ^ 3 := by
  constructor <;> norm_num [subductionOffset]

/-- C7 amended: the perturbation scalar equals `sign · offset³` (third
power, not fourth), and the displacement applied before locating the deposit
cell is `dx ← 10·dx + 3·offset`, `dy ← 10·dy + 3·offset` with the same
scalar on both axes. -/
theorem subduction_scalar_displacement (offset sign dx dy : ℚ) :
    subductionOffset offset sign = sign * offset ^ 3 ∧
      subductionDisplace dx dy (subductionOffset offset sign) =
        (10 * dx + 3 * (sign * offset ^ 3), 10 * dy + 3 * (sign * offset ^ 3)) := by
  refine ⟨by unfold subductionOffset; ring, ?_⟩
  unfold subductionDisplace subductionOffset
  simp only [Prod.mk.injEq]
  constructor <;> ring

/-- C8: a subduction deposit whose displaced target lies outside the plate
rectangle or lands on a cell without crust is a silent no-op: the plate is
returned unchanged (heights, ages and mass untouched) and no error arises. -/
theorem addCrustBySubduction_noop (p : Plate) (x y : ℕ) (z : ℚ) (t : ℕ)
    (dx dy offset0 : ℚ) (rnd : ℕ) (lc : ℕ × ℕ)
    (hloc : p.getLocal x y = some lc)
    (hmiss :
      ¬ (0 ≤ (p.subductionTarget lc.1 lc.2 dx dy offset0 rnd).1 ∧
          (p.subductionTarget lc.1 lc.2 dx dy offset0 rnd).1 < (p.width : ℚ) ∧
          0 ≤ (p.subductionTarget lc.1 lc.2 dx dy offset0 rnd).2 ∧
          (p.subductionTarget lc.1 lc.2 dx dy offset0 rnd).2 < (p.height : ℚ)) ∨
        p.map (u32cast (p.subductionTarget lc.1 lc.2 dx dy offset0 rnd).2 * p.width +
          u32cast (p.subductionTarget lc.1 lc.2 dx dy offset0 rnd).1) = 0) :
    p.addCrustBySubduction x y z t dx dy offset0 rnd = some p := by
  simp only [Plate.addCrustBySubduction, hloc]
  rcases hmiss with hout | hzero
  · rw [if_neg hout]
  · by_cases hin : 0 ≤ (p.subductionTarget lc.1 lc.2 dx dy offset0 rnd).1 ∧
        (p.subductionTarget lc.1 lc.2 dx dy offset0 rnd).1 < (p.width : ℚ) ∧
        0 ≤ (p.subductionTarget lc.1 lc.2 dx dy offset0 rnd).2 ∧
        (p.subductionTarget lc.1 lc.2 dx dy offset0 rnd).2 < (p.height : ℚ)
    · rw [if_pos hin, if_neg (by rw [hzero]; exact lt_irrefl 0)]
    · rw [if_neg hin]

/-- Witness for C8 at a concrete input: on the S1 plate, a deposit aimed at
the ocean cell `(3, 4)` leaves the plate unchanged. -/
theorem addCrustBySubduction_noop_witness :
    plateA.addCrustBySubduction 3 4 5 9 0 0 0 0 = some plateA :=
  addCrustBySubduction_noop plateA 3 4 5 9 0 0 0 0 (1, 2) (by decide)
    (Or.inr (by with_unfolding_all decide))

/-- C9: a subduction deposit with `z > 0` landing inside the plate on a
cell with existing crust leaves that cell's age inside
`[min(old age, t), max(old age, t)]`. -/
theorem addCrustBySubduction_age_monotone (p : Plate) (x y : ℕ) (z : ℚ) (t : ℕ)
    (dx dy offset0 : ℚ) (rnd : ℕ) (lc : ℕ × ℕ) (ft : ℚ × ℚ) (idx : ℕ) (p' : Plate)
    (hloc : p.getLocal x y = some lc)
    (hft : ft = p.subductionTarget lc.1 lc.2 dx dy offset0 rnd)
    (hidx : idx = u32cast ft.2 * p.width + u32cast ft.1)
    (hin : 0 ≤ ft.1 ∧ ft.1 < (p.width : ℚ) ∧ 0 ≤ ft.2 ∧ ft.2 < (p.height : ℚ))
    (hcrust : 0 < p.map idx) (hz : 0 < z)
    (hrun : p.addCrustBySubduction x y z t dx dy offset0 rnd = some p') :
    min (p.age_map idx) t ≤ p'.age_map idx ∧ p'.age_map idx ≤ max (p.age_map idx) t := by
  subst hft hidx
  simp only [Plate.addCrustBySubduction, hloc] at hrun
  rw [if_pos hin, if_pos hcrust] at hrun
  injection hrun with hrun
  subst hrun
  simp only [Function.update_same, if_pos hz]
  exact wavg_bounds (p.map _) (p.age_map _) t z hcrust hz

/-- Witness for C9 at a concrete input: depositing `1` at age `11` on the
all-ones plate's centre cell (old age `5`) yields an age in `[5, 11]`. -/
theorem addCrustBySubduction_age_monotone_witness :
    ∃ p', plateFlat.addCrustBySubduction 3 3 1 11 0 0 0 0 = some p' ∧
      min (plateFlat.age_map 4) 11 ≤ p'.age_map 4 ∧
      p'.age_map 4 ≤ max (plateFlat.age_map 4) 11 := by
  have h : (plateFlat.addCrustBySubduction 3 3 1 11 0 0 0 0).isSome = true := by
    with_unfolding_all decide
  refine ⟨(plateFlat.addCrustBySubduction 3 3 1 11 0 0 0 0).get h,
    (Option.some_get h).symm, ?_⟩
  exact addCrustBySubduction_age_monotone plateFlat 3 3 1 11 0 0 0 0 (1, 1)
    (plateFlat.subductionTarget 1 1 0 0 0 0) 4 _ (by decide) rfl
    (by with_unfolding_all decide) (by with_unfolding_all decide)
    (by with_unfolding_all decide) (by with_unfolding_all decide)
    (Option.some_get h).symm

/-- C10: a subduction deposit with `z = 0` landing inside the plate on a
cell with existing crust leaves the heights and the mass unchanged but
zeroes the cell's age, because the weighted-average age is multiplied by
the indicator `z > 0` before being stored. -/
theorem addCrustBySubduction_zero_amount (p : Plate) (x y : ℕ) (t : ℕ)
    (dx dy offset0 : ℚ) (rnd : ℕ) (lc : ℕ × ℕ) (ft : ℚ × ℚ) (idx : ℕ) (p' : Plate)
    (hloc : p.getLocal x y = some lc)
    (hft : ft = p.subductionTarget lc.1 lc.2 dx dy offset0 rnd)
    (hidx : idx = u32cast ft.2 * p.width + u32cast ft.1)
    (hin : 0 ≤ ft.1 ∧ ft.1 < (p.width : ℚ) ∧ 0 ≤ ft.2 ∧ ft.2 < (p.height : ℚ))
    (hcrust : 0 < p.map idx)
    (hrun : p.addCrustBySubduction x y 0 t dx dy offset0 rnd = some p') :
    p'.map = p.map ∧ p'.mass = p.mass ∧ p'.age_map idx = 0 := by
  subst hft hidx
  simp only [Plate.addCrustBySubduction, hloc] at hrun
  rw [if_pos hin, if_pos hcrust] at hrun
  injection hrun with hrun
  subst hrun
  refine ⟨?_, by simp, ?_⟩
  · simp only [add_zero, Function.update_eq_self]
  · simp [Function.update_same]

/-- Witness for C10 at a concrete input: a zero-amount deposit on the
all-ones plate's centre cell keeps heights and mass but zeroes the age. -/
theorem addCrustBySubduction_zero_amount_witness :
    ∃ p', plateFlat.addCrustBySubduction 3 3 0 9 0 0 0 0 = some p' ∧
      p'.map = plateFlat.map ∧ p'.mass = plateFlat.mass ∧ p'.age_map 4 = 0 := by
  have h : (plateFlat.addCrustBySubduction 3 3 0 9 0 0 0 0).isSome = true := by
    with_unfolding_all decide
  refine ⟨(plateFlat.addCrustBySubduction 3 3 0 9 0 0 0 0).get h,
    (Option.some_get h).symm, ?_⟩
  exact addCrustBySubduction_zero_amount plateFlat 3 3 9 0 0 0 0 (1, 1)
    (plateFlat.subductionTarget 1 1 0 0 0 0) 4 _ (by decide) rfl
    (by with_unfolding_all decide) (by with_unfolding_all decide)
    (by with_unfolding_all decide) (Option.some_get h).symm

/-- The push condition of `plate::findRiverSources`, spelt out: the cell is
at least `lower_bound` high and the four neighbour crusts returned by
`calculateCrust` are all nonzero. -/
theorem riverSourceAt_iff (p : Plate) (lb : ℚ) (x y : ℕ) :
    p.riverSourceAt lb x y = true ↔
      lb ≤ p.map (y * p.width + x) ∧
        (p.calculateCrust x y).1 ≠ 0 ∧ (p.calculateCrust x y).2.1 ≠ 0 ∧
        (p.calculateCrust x y).2.2.1 ≠ 0 ∧ (p.calculateCrust x y).2.2.2 ≠ 0 := by
  unfold Plate.riverSourceAt
  split_ifs with h1 h2
  · simp only [Bool.false_eq_true, false_iff]
    rintro ⟨hle, -⟩
    exact absurd h1 (not_lt.mpr hle)
  · simp only [Bool.false_eq_true, false_iff]
    rintro ⟨-, ha, hb, hc, hd⟩
    exact mul_ne_zero (mul_ne_zero (mul_ne_zero ha hb) hc) hd h2
  · simp only [true_iff]
    refine ⟨not_lt.mp h1, ?_⟩
    obtain ⟨h3, hd⟩ := mul_ne_zero_iff.mp h2
    obtain ⟨h4, hc⟩ := mul_ne_zero_iff.mp h3
    obtain ⟨ha, hb⟩ := mul_ne_zero_iff.mp h4
    exact ⟨ha, hb, hc, hd⟩

/-- C6 counterexample: on the all-ones 3×3 plate with `lower_bound = 1`,
`findRiverSources` pushes cell `4` (local `(1,1)`) although its west
4-neighbour, cell `3`, is of equal height and hence not strictly lower —
refuting the claim that every pushed cell strictly dominates its four
neighbours. -/
theorem findRiverSources_counterexample :
    4 ∈ plateFlat.findRiverSources 1 ∧ ¬ plateFlat.map 3 < plateFlat.map 4 := by
  with_unfolding_all decide

/-- C6 amended: `findRiverSources(lower_bound)` pushes exactly the cells
`i = y·width + x` with `map[i] ≥ lower_bound` whose four neighbour crust
values returned by `calculateCrust` (the neighbour's height, or `0` when
that direction is off the plate) are all nonzero; no strictly-lower
comparison with the neighbours is involved. -/
theorem findRiverSources_mem (p : Plate) (lb : ℚ) (i : ℕ) :
    i ∈ p.findRiverSources lb ↔
      ∃ x y, x < p.width ∧ y < p.height ∧ i = y * p.width + x ∧
        lb ≤ p.map i ∧
        (p.calculateCrust x y).1 ≠ 0 ∧ (p.calculateCrust x y).2.1 ≠ 0 ∧
        (p.calculateCrust x y).2.2.1 ≠ 0 ∧ (p.calculateCrust x y).2.2.2 ≠ 0 := by
  unfold Plate.findRiverSources
  simp only [List.mem_flatMap, List.mem_filterMap, List.mem_range,
    Option.ite_none_right_eq_some, Option.some.injEq, riverSourceAt_iff]
  constructor
  · rintro ⟨y, hy, x, hx, ⟨hle, hw⟩, rfl⟩
    exact ⟨x, y, hx, hy, rfl, hle, hw⟩
  · rintro ⟨x, y, hx, hy, rfl, hle, hw⟩
    exact ⟨y, hy, x, hx, ⟨hle, hw⟩, rfl⟩

/-- C2: the cell update of `plate::setCrust` at the resolved target index
(after any reframe): with existing crust and `z > 0` the new timestamp is
the mass-weighted average `(map·age + z·t)/(map + z)` (stored through the
`uint32` cast); with no existing crust and `z > 0` it becomes `t`; with
`z ≤ 0` it is unchanged; the height is overwritten to `max(z, 0)` and the
mass adjusted by the new value minus the old one. -/
theorem setCrust_cell_update (p : Plate) (x y : ℕ) (z : ℚ) (t : ℕ)
    (r : Plate) (index : ℕ) (q : Plate)
    (hres : p.setCrustResolve x y (if z < 0 then 0 else z) = some (r, index))
    (hq : q = r.setCrustAt index (if z < 0 then 0 else z) t) :
    p.setCrustCore x y z t = some (q, index) ∧
    (0 < r.map index → 0 < z →
      q.age_map index =
        u32cast ((r.map index * r.age_map index + z * t) / (r.map index + z))) ∧
    (¬ 0 < r.map index → 0 < z → q.age_map index = t) ∧
    (z ≤ 0 → q.age_map index = r.age_map index) ∧
    q.map index = max z 0 ∧
    q.mass = r.mass - r.map index + max z 0 := by
  subst hq
  have hmax : (if z < 0 then 0 else z) = max z 0 := clamp_eq_max z
  refine ⟨?_, ?_, ?_, ?_, ?_, ?_⟩
  · simp only [Plate.setCrustCore]
    rw [hres]
    rfl
  · intro hm hz
    have h1 : (if z < 0 then 0 else z) = z := if_neg (not_lt.mpr hz.le)
    simp only [Plate.setCrustAt, Function.update_same, h1]
    rw [if_pos hz, if_pos hm]
  · intro hm hz
    have h1 : (if z < 0 then 0 else z) = z := if_neg (not_lt.mpr hz.le)
    simp only [Plate.setCrustAt, Function.update_same, h1]
    rw [if_pos hz, if_neg hm]
  · intro hz0
    have h1 : ¬ 0 < (if z < 0 then 0 else z) := by
      split_ifs with h
      · exact lt_irrefl 0
      · exact not_lt.mpr hz0
    simp only [Plate.setCrustAt, Function.update_same]
    rw [if_neg h1]
  · simp only [Plate.setCrustAt, Function.update_same, hmax]
  · simp only [Plate.setCrustAt, hmax]

/-- Witness for C2 at a concrete input: on the S1 plate, `setCrust(3,3,2,9)`
resolves in place to index `4` and overwrites the height to `2`. -/
theorem setCrust_cell_update_witness :
    plateA.setCrustResolve 3 3 (if (2:ℚ) < 0 then 0 else 2) = some (plateA, 4) ∧
    plateA.setCrustCore 3 3 2 9 =
      some (plateA.setCrustAt 4 (if (2:ℚ) < 0 then 0 else 2) 9, 4) ∧
    (plateA.setCrustAt 4 (if (2:ℚ) < 0 then 0 else 2) 9).map 4 = max 2 0 := by
  have h1 : plateA.setCrustResolve 3 3 (if (2:ℚ) < 0 then 0 else 2) =
      some (plateA, 4) := by
    with_unfolding_all rfl
  have h2 := setCrust_cell_update plateA 3 3 2 9 plateA 4 _ h1 rfl
  exact ⟨h1, h2.1, h2.2.2.2.2.1⟩

/-! Toroidal-arithmetic lemmas for the reframe path. -/

theorem emod_shift (X L D Wz : ℤ) :
    (X + (Wz - (L + Wz - D) % Wz)) % Wz = ((X + (Wz - L)) % Wz + D) % Wz := by
  have base : ∀ a : ℤ, a % Wz % Wz = a % Wz := fun a => Int.emod_emod_of_dvd a dvd_rfl
  have h1 : (X + (Wz - (L + Wz - D) % Wz)) % Wz = (X + (Wz - (L + Wz - D))) % Wz :=
    Int.ModEq.add_left X (Int.ModEq.sub (Int.ModEq.refl Wz) (base _))
  have h2 : (X + (Wz - L)) % Wz + D ≡ (X + (Wz - L)) + D [ZMOD Wz] :=
    Int.ModEq.add_right D (base (X + (Wz - L)))
  calc (X + (Wz - (L + Wz - D) % Wz)) % Wz
      = (X + (Wz - (L + Wz - D))) % Wz := h1
    _ = (X - L + D) % Wz := by rw [show X + (Wz - (L + Wz - D)) = X - L + D from by ring]
    _ = (X - L + D + 1 * Wz) % Wz := (Int.add_mul_emod_self.symm)
    _ = ((X + (Wz - L)) + D) % Wz := by
        rw [show X - L + D + 1 * Wz = (X + (Wz - L)) + D from by ring]
    _ = ((X + (Wz - L)) % Wz + D) % Wz := h2.symm

theorem locx_lt (W l x : ℕ) (hW : 0 < W) : locx W l x < W :=
  Nat.mod_lt _ hW

theorem locx_shift (W l d x : ℕ) (hl : l < W) (hd : d ≤ W) :
    locx W ((l + W - d) % W) x = (locx W l x + d) % W := by
  have hW : 0 < W := Nat.pos_of_ne_zero (by omega)
  have hmod : (l + W - d) % W ≤ W := (Nat.mod_lt _ hW).le
  have hdl : d ≤ l + W := by omega
  have hlW : l ≤ W := hl.le
  unfold locx
  zify [hmod, hdl, hlW]
  exact emod_shift ((x : ℤ) % (W : ℤ)) l d W

theorem shift_fresh (W w d a b : ℕ) (ha : a < W) (hout : w ≤ a)
    (hb : b = (a + d) % W) (hd : d ≤ W) : ¬ (d ≤ b ∧ b < d + w) := by
  rcases Nat.lt_or_ge (a + d) W with h | h
  · rw [hb, Nat.mod_eq_of_lt h]
    omega
  · have h2 : (a + d) % W = a + d - W := by
      rw [Nat.mod_eq_sub_mod h, Nat.mod_eq_of_lt (by omega)]
    rw [hb, h2]
    omega

theorem shift_preserved (W w d a : ℕ) (ha : a < w) (hbound : d + w ≤ W) :
    (a + d) % W = d + a := by
  rw [Nat.mod_eq_of_lt (by omega)]
  omega

theorem reframeDeltas_hbound (p : Plate) (x0 y0 : ℕ) (hw : p.width ≤ p.wdW) :
    p.width + (p.reframeDeltas x0 y0).1 + (p.reframeDeltas x0 y0).2.1 ≤ p.wdW := by
  simp only [Plate.reframeDeltas]
  split_ifs <;> omega

theorem reframeDeltas_vbound (p : Plate) (x0 y0 : ℕ) (hh : p.height ≤ p.wdH) :
    p.height + (p.reframeDeltas x0 y0).2.2.1 + (p.reframeDeltas x0 y0).2.2.2 ≤ p.wdH := by
  simp only [Plate.reframeDeltas]
  split_ifs <;> omega

theorem regrid_at {α : Type} (w newW dl dt h : ℕ) (f : ℕ → α) (z : α)
    (lx ly : ℕ) (hx : lx < newW) :
    regrid w newW dl dt h f z (ly * newW + lx) =
      if dl ≤ lx ∧ lx < dl + w ∧ dt ≤ ly ∧ ly < dt + h then
        f ((ly - dt) * w + (lx - dl))
      else z := by
  have h0 : 0 < newW := lt_of_le_of_lt (Nat.zero_le lx) hx
  unfold regrid
  dsimp only
  rw [Nat.mul_comm ly newW, Nat.mul_add_mod, Nat.mod_eq_of_lt hx,
    Nat.mul_add_div h0, Nat.div_eq_of_lt hx, Nat.add_zero]

/-! Projection lemmas for `reframed` and `setCrustAt`. -/

theorem reframed_wdW (p : Plate) (dl dr dt db : ℕ) :
    (p.reframed dl dr dt db).wdW = p.wdW := rfl

theorem reframed_wdH (p : Plate) (dl dr dt db : ℕ) :
    (p.reframed dl dr dt db).wdH = p.wdH := rfl

theorem reframed_left (p : Plate) (dl dr dt db : ℕ) :
    (p.reframed dl dr dt db).left = (p.left + p.wdW - dl) % p.wdW := rfl

theorem reframed_top (p : Plate) (dl dr dt db : ℕ) :
    (p.reframed dl dr dt db).top = (p.top + p.wdH - dt) % p.wdH := rfl

theorem reframed_width (p : Plate) (dl dr dt db : ℕ) :
    (p.reframed dl dr dt db).width = p.width + dl + dr := rfl

theorem reframed_height (p : Plate) (dl dr dt db : ℕ) :
    (p.reframed dl dr dt db).height = p.height + dt + db := rfl

theorem reframed_mass (p : Plate) (dl dr dt db : ℕ) :
    (p.reframed dl dr dt db).mass = p.mass := rfl

theorem reframed_map (p : Plate) (dl dr dt db : ℕ) :
    (p.reframed dl dr dt db).map =
      regrid p.width (p.width + dl + dr) dl dt p.height p.map 0 := rfl

theorem reframed_age_map (p : Plate) (dl dr dt db : ℕ) :
    (p.reframed dl dr dt db).age_map =
      regrid p.width (p.width + dl + dr) dl dt p.height p.age_map 0 := rfl

theorem reframed_segId (p : Plate) (dl dr dt db : ℕ) :
    (p.reframed dl dr dt db).segId =
      regrid p.width (p.width + dl + dr) dl dt p.height p.segId noContinent := rfl

theorem reframed_segData (p : Plate) (dl dr dt db : ℕ) :
    (p.reframed dl dr dt db).segData = fun s => (p.segData s).shiftBox dl dt := rfl

theorem regrid_vals {α : Type} (w newW dl dt h : ℕ) (f : ℕ → α) (z : α) (idx : ℕ) :
    regrid w newW dl dt h f z idx = z ∨
      ∃ j, regrid w newW dl dt h f z idx = f j := by
  unfold regrid
  dsimp only
  split_ifs
  · exact Or.inr ⟨_, rfl⟩
  · exact Or.inl rfl

theorem setCrustAt_mass (p : Plate) (index : ℕ) (z : ℚ) (t : ℕ) :
    (p.setCrustAt index z t).mass = p.mass - p.map index + z := rfl

theorem setCrustAt_map (p : Plate) (index : ℕ) (z : ℚ) (t : ℕ) :
    (p.setCrustAt index z t).map = Function.update p.map index z := rfl

theorem setCrustAt_frame (p : Plate) (index : ℕ) (z : ℚ) (t : ℕ) :
    (p.setCrustAt index z t).wdW = p.wdW ∧ (p.setCrustAt index z t).wdH = p.wdH ∧
    (p.setCrustAt index z t).left = p.left ∧ (p.setCrustAt index z t).top = p.top ∧
    (p.setCrustAt index z t).width = p.width ∧
    (p.setCrustAt index z t).height = p.height ∧
    (p.setCrustAt index z t).segId = p.segId ∧
    (p.setCrustAt index z t).segData = p.segData :=
  ⟨rfl, rfl, rfl, rfl, rfl, rfl, rfl, rfl⟩

/-! Resolution lemmas for `getLocal` on original and reframed plates. -/

theorem getLocal_some (p : Plate) (x y lx ly : ℕ)
    (h : p.getLocal x y = some (lx, ly)) :
    lx = locx p.wdW p.left x ∧ ly = locx p.wdH p.top y ∧
      lx < p.width ∧ ly < p.height := by
  simp only [Plate.getLocal] at h
  split_ifs at h with hc
  · injection h with h2
    obtain ⟨h3, h4⟩ := Prod.mk.injEq .. |>.mp h2
    exact ⟨h3.symm, h4.symm, h3 ▸ hc.1, h4 ▸ hc.2⟩

theorem getLocal_none (p : Plate) (x y : ℕ) (h : p.getLocal x y = none) :
    ¬ (locx p.wdW p.left x < p.width ∧ locx p.wdH p.top y < p.height) := by
  simp only [Plate.getLocal] at h
  split_ifs at h with hc
  · exact hc

theorem getLocal_of (p : Plate) (x y : ℕ)
    (hx : locx p.wdW p.left x < p.width) (hy : locx p.wdH p.top y < p.height) :
    p.getLocal x y = some (locx p.wdW p.left x, locx p.wdH p.top y) := by
  simp only [Plate.getLocal]
  rw [if_pos ⟨hx, hy⟩]

theorem reframed_getLocal_some (p : Plate) (dl dr dt db : ℕ)
    (hl : p.left < p.wdW) (ht : p.top < p.wdH)
    (hwb : p.width + dl + dr ≤ p.wdW) (hhb : p.height + dt + db ≤ p.wdH)
    (x y lx ly : ℕ) (h : p.getLocal x y = some (lx, ly)) :
    (p.reframed dl dr dt db).getLocal x y = some (dl + lx, dt + ly) := by
  obtain ⟨hlx, hly, hxw, hyh⟩ := getLocal_some p x y lx ly h
  have hx' : locx p.wdW ((p.left + p.wdW - dl) % p.wdW) x = dl + lx := by
    rw [locx_shift _ _ _ _ hl (by omega), ← hlx,
      shift_preserved p.wdW p.width dl lx hxw (by omega)]
  have hy' : locx p.wdH ((p.top + p.wdH - dt) % p.wdH) y = dt + ly := by
    rw [locx_shift _ _ _ _ ht (by omega), ← hly,
      shift_preserved p.wdH p.height dt ly hyh (by omega)]
  simp only [Plate.getLocal]
  rw [reframed_wdW, reframed_left, reframed_wdH, reframed_top, reframed_width,
    reframed_height, hx', hy']
  rw [if_pos ⟨by omega, by omega⟩]

theorem reframed_preserved_vals (p : Plate) (dl dr dt db lx ly : ℕ)
    (hxw : lx < p.width) (hyh : ly < p.height) :
    (p.reframed dl dr dt db).map ((dt + ly) * (p.width + dl + dr) + (dl + lx)) =
      p.map (ly * p.width + lx) ∧
    (p.reframed dl dr dt db).age_map ((dt + ly) * (p.width + dl + dr) + (dl + lx)) =
      p.age_map (ly * p.width + lx) ∧
    (p.reframed dl dr dt db).segId ((dt + ly) * (p.width + dl + dr) + (dl + lx)) =
      p.segId (ly * p.width + lx) := by
  have hx : dl + lx < p.width + dl + dr := by omega
  refine ⟨?_, ?_, ?_⟩
  · rw [reframed_map, regrid_at _ _ _ _ _ _ _ _ _ hx,
      if_pos ⟨by omega, by omega, by omega, by omega⟩,
      Nat.add_sub_cancel_left, Nat.add_sub_cancel_left]
  · rw [reframed_age_map, regrid_at _ _ _ _ _ _ _ _ _ hx,
      if_pos ⟨by omega, by omega, by omega, by omega⟩,
      Nat.add_sub_cancel_left, Nat.add_sub_cancel_left]
  · rw [reframed_segId, regrid_at _ _ _ _ _ _ _ _ _ hx,
      if_pos ⟨by omega, by omega, by omega, by omega⟩,
      Nat.add_sub_cancel_left, Nat.add_sub_cancel_left]

theorem reframed_fresh_vals (p : Plate) (dl dr dt db : ℕ)
    (hl : p.left < p.wdW) (ht : p.top < p.wdH)
    (hwb : p.width + dl + dr ≤ p.wdW) (hhb : p.height + dt + db ≤ p.wdH)
    (x y lx' ly' : ℕ)
    (hout : p.getLocal x y = none)
    (h : (p.reframed dl dr dt db).getLocal x y = some (lx', ly')) :
    ¬ (dl ≤ lx' ∧ lx' < dl + p.width ∧ dt ≤ ly' ∧ ly' < dt + p.height) ∧
    (p.reframed dl dr dt db).map (ly' * (p.width + dl + dr) + lx') = 0 ∧
    (p.reframed dl dr dt db).age_map (ly' * (p.width + dl + dr) + lx') = 0 ∧
    (p.reframed dl dr dt db).segId (ly' * (p.width + dl + dr) + lx') = noContinent := by
  have hW : 0 < p.wdW := by omega
  have hH : 0 < p.wdH := by omega
  obtain ⟨hlx', hly', hxw', hyh'⟩ := getLocal_some _ x y lx' ly' h
  rw [reframed_wdW, reframed_left] at hlx'
  rw [reframed_wdH, reframed_top] at hly'
  rw [reframed_width] at hxw'
  rw [reframed_height] at hyh'
  have hx2 : lx' = (locx p.wdW p.left x + dl) % p.wdW := by
    rw [hlx', locx_shift _ _ _ _ hl (by omega)]
  have hy2 : ly' = (locx p.wdH p.top y + dt) % p.wdH := by
    rw [hly', locx_shift _ _ _ _ ht (by omega)]
  have hnot := getLocal_none p x y hout
  have hfresh : ¬ (dl ≤ lx' ∧ lx' < dl + p.width ∧ dt ≤ ly' ∧ ly' < dt + p.height) := by
    rcases not_and_or.mp hnot with hxo | hyo
    · have h5 := shift_fresh p.wdW p.width dl (locx p.wdW p.left x) lx'
        (locx_lt _ _ _ hW) (not_lt.mp hxo) hx2 (by omega)
      tauto
    · have h5 := shift_fresh p.wdH p.height dt (locx p.wdH p.top y) ly'
        (locx_lt _ _ _ hH) (not_lt.mp hyo) hy2 (by omega)
      tauto
  refine ⟨hfresh, ?_, ?_, ?_⟩
  · rw [reframed_map, regrid_at _ _ _ _ _ _ _ _ _ hxw', if_neg hfresh]
  · rw [reframed_age_map, regrid_at _ _ _ _ _ _ _ _ _ hxw', if_neg hfresh]
  · rw [reframed_segId, regrid_at _ _ _ _ _ _ _ _ _ hxw', if_neg hfresh]

/-! Elimination and specification lemmas for the `setCrust` pipeline. -/

theorem reframe_elim {p : Plate} {x0 y0 : ℕ} {q : Plate}
    (h : p.reframe x0 y0 = some q) :
    q = p.reframed (p.reframeDeltas x0 y0).1 (p.reframeDeltas x0 y0).2.1
      (p.reframeDeltas x0 y0).2.2.1 (p.reframeDeltas x0 y0).2.2.2 := by
  simp only [Plate.reframe] at h
  split_ifs at h with hz
  injection h with h2
  exact h2.symm

theorem setCrustResolve_elim {p : Plate} {x y : ℕ} {z : ℚ} {r : Plate} {index : ℕ}
    (hres : p.setCrustResolve x y z = some (r, index)) :
    (p.getMapIndex x y = some index ∧ r = p) ∨
    (p.getMapIndex x y = none ∧ ¬ z ≤ 0 ∧ p.reframe x y = some r ∧
      r.getMapIndex x y = some index) := by
  unfold Plate.setCrustResolve at hres
  cases hgm : p.getMapIndex x y with
  | some i =>
    rw [hgm] at hres
    simp only at hres
    injection hres with h2
    obtain ⟨h3, h4⟩ := Prod.mk.injEq .. |>.mp h2
    exact Or.inl ⟨by rw [h4], h3.symm⟩
  | none =>
    rw [hgm] at hres
    simp only at hres
    split_ifs at hres with hz
    cases hrf : p.reframe x y with
    | none =>
      rw [hrf] at hres
      exact absurd hres (by simp)
    | some q =>
      rw [hrf] at hres
      simp only at hres
      cases hgq : q.getMapIndex x y with
      | none =>
        rw [hgq] at hres
        exact absurd hres (by simp)
      | some i =>
        rw [hgq] at hres
        simp only at hres
        injection hres with h2
        obtain ⟨h3, h4⟩ := Prod.mk.injEq .. |>.mp h2
        refine Or.inr ⟨rfl, hz, ?_, ?_⟩
        · rw [← h3]
        · rw [← h3, ← h4]
          exact hgq

theorem getMapIndex_some_elim {p : Plate} {x y : ℕ} {index : ℕ}
    (h : p.getMapIndex x y = some index) :
    ∃ lx ly, p.getLocal x y = some (lx, ly) ∧ index = ly * p.width + lx := by
  unfold Plate.getMapIndex at h
  obtain ⟨c, hc, hi⟩ := Option.map_eq_some'.mp h
  exact ⟨c.1, c.2, hc, hi.symm⟩

theorem getMapIndex_none_elim {p : Plate} {x y : ℕ}
    (h : p.getMapIndex x y = none) : p.getLocal x y = none := by
  unfold Plate.getMapIndex at h
  exact Option.map_eq_none'.mp h

theorem getCrust_of_none {p : Plate} {x y : ℕ} (h : p.getMapIndex x y = none) :
    p.getCrust x y = 0 := by
  unfold Plate.getCrust
  rw [h]

theorem getCrust_of_some {p : Plate} {x y : ℕ} {index : ℕ}
    (h : p.getMapIndex x y = some index) : p.getCrust x y = p.map index := by
  unfold Plate.getCrust
  rw [h]

theorem setCrustResolve_spec (p : Plate) (x y : ℕ) (z : ℚ) (r : Plate) (index : ℕ)
    (hwf : PlateWF p)
    (hres : p.setCrustResolve x y z = some (r, index)) :
    r.map index = p.getCrust x y ∧ r.mass = p.mass ∧ PlateWF r ∧
      r.wdW = p.wdW ∧ r.wdH = p.wdH := by
  obtain ⟨hnn, hl, ht, hw, hh⟩ := hwf
  rcases setCrustResolve_elim hres with ⟨hgm, rfl⟩ | ⟨hgm, hz, hrf, hgq⟩
  · exact ⟨(getCrust_of_some hgm).symm, rfl, ⟨hnn, hl, ht, hw, hh⟩, rfl, rfl⟩
  · have hq := reframe_elim hrf
    subst hq
    have hwb := reframeDeltas_hbound p x y hw
    have hhb := reframeDeltas_vbound p x y hh
    obtain ⟨lx', ly', hlc, hidx⟩ := getMapIndex_some_elim hgq
    rw [reframed_width] at hidx
    have hfresh := reframed_fresh_vals p _ _ _ _ hl ht hwb hhb x y lx' ly'
      (getMapIndex_none_elim hgm) hlc
    refine ⟨?_, reframed_mass .., ⟨?_, ?_, ?_, ?_, ?_⟩, reframed_wdW .., reframed_wdH ..⟩
    · rw [hidx, hfresh.2.1, getCrust_of_none hgm]
    · intro i
      rw [reframed_map]
      rcases regrid_vals p.width (p.width + _ + _) _ _ p.height p.map 0 i with hv | ⟨j, hv⟩
      · rw [hv]
      · rw [hv]; exact hnn j
    · rw [reframed_left, reframed_wdW]
      exact Nat.mod_lt _ (by omega)
    · rw [reframed_top, reframed_wdH]
      exact Nat.mod_lt _ (by omega)
    · rw [reframed_width, reframed_wdW]
      omega
    · rw [reframed_height, reframed_wdH]
      omega

theorem setCrustCore_elim {p : Plate} {x y : ℕ} {z : ℚ} {t : ℕ} {q : Plate}
    {index : ℕ} (h : p.setCrustCore x y z t = some (q, index)) :
    ∃ r, p.setCrustResolve x y (if z < 0 then 0 else z) = some (r, index) ∧
      q = r.setCrustAt index (if z < 0 then 0 else z) t := by
  simp only [Plate.setCrustCore] at h
  obtain ⟨s, hs, hq⟩ := Option.map_eq_some'.mp h
  obtain ⟨h1, h2⟩ := Prod.mk.injEq .. |>.mp hq
  refine ⟨s.1, ?_, ?_⟩
  · rw [← h2]
    exact hs
  · rw [← h2]
    exact h1.symm

theorem setCrustCore_mass (p : Plate) (x y : ℕ) (z : ℚ) (t : ℕ) (q : Plate)
    (index : ℕ) (hwf : PlateWF p)
    (hres : p.setCrustCore x y z t = some (q, index)) :
    q.mass = p.mass - p.getCrust x y + max z 0 ∧ PlateWF q ∧
      q.wdW = p.wdW ∧ q.wdH = p.wdH := by
  obtain ⟨r, hr, rfl⟩ := setCrustCore_elim hres
  obtain ⟨hval, hmass, ⟨hnn, hl, ht, hw, hh⟩, hW, hH⟩ :=
    setCrustResolve_spec p x y _ r index hwf hr
  refine ⟨?_, ⟨?_, hl, ht, hw, hh⟩, hW, hH⟩
  · rw [setCrustAt_mass, hval, hmass, clamp_eq_max]
  · intro i
    rw [setCrustAt_map]
    rcases eq_or_ne i index with rfl | hne
    · rw [Function.update_same, clamp_eq_max]
      exact le_max_right z 0
    · rw [Function.update_noteq hne]
      exact hnn i

theorem index_coords_inj (w a b a' b' : ℕ) (ha : a < w) (ha' : a' < w)
    (h : b * w + a = b' * w + a') : a = a' ∧ b = b' := by
  have h1 : (b * w + a) % w = a := by
    rw [Nat.mul_comm b w, Nat.mul_add_mod, Nat.mod_eq_of_lt ha]
  have h2 : (b' * w + a') % w = a' := by
    rw [Nat.mul_comm b' w, Nat.mul_add_mod, Nat.mod_eq_of_lt ha']
  have h3 : (b * w + a) / w = b := by
    rw [Nat.mul_comm b w, Nat.mul_add_div (by omega), Nat.div_eq_of_lt ha,
      Nat.add_zero]
  have h4 : (b' * w + a') / w = b' := by
    rw [Nat.mul_comm b' w, Nat.mul_add_div (by omega), Nat.div_eq_of_lt ha',
      Nat.add_zero]
  constructor
  · rw [← h1, ← h2, h]
  · rw [← h3, ← h4, h]

theorem getMapIndex_of_getLocal {p : Plate} {x y lx ly : ℕ}
    (h : p.getLocal x y = some (lx, ly)) :
    p.getMapIndex x y = some (ly * p.width + lx) := by
  unfold Plate.getMapIndex
  rw [h]
  rfl

theorem setCrustAt_getMapIndex (p : Plate) (i : ℕ) (z : ℚ) (t : ℕ) (x y : ℕ) :
    (p.setCrustAt i z t).getMapIndex x y = p.getMapIndex x y := rfl

theorem setCrustAt_age_map (p : Plate) (i : ℕ) (z : ℚ) (t : ℕ) :
    (p.setCrustAt i z t).age_map = Function.update p.age_map i
      (if 0 < z then
        (if 0 < p.map i then
          u32cast ((p.map i * p.age_map i + z * t) / (p.map i + z))
        else t)
      else p.age_map i) := rfl

/-- C4: a `setCrust` call at a world cell outside the plate rectangle that
triggers a reframe preserves every old in-bounds cell's height and age at
its new offset position, shifts every segment's bounding box by
`(d_lft, d_top)`, and fills all newly added cells of the reframed grid with
height `0`, age `0` and the unassigned segment-id sentinel. -/
theorem setCrust_reframe_preserves (p : Plate) (x y : ℕ) (z : ℚ) (t : ℕ)
    (q : Plate) (index : ℕ)
    (hl : p.left < p.wdW) (ht : p.top < p.wdH)
    (hw : p.width ≤ p.wdW) (hh : p.height ≤ p.wdH)
    (hout : p.getMapIndex x y = none)
    (hres : p.setCrustCore x y z t = some (q, index)) :
    ∃ r, p.reframe x y = some r ∧
      (∀ wx wy i, p.getMapIndex wx wy = some i →
        ∃ i', q.getMapIndex wx wy = some i' ∧
          q.map i' = p.map i ∧ q.age_map i' = p.age_map i) ∧
      (∀ s, r.segData s =
        (p.segData s).shiftBox (p.reframeDeltas x y).1 (p.reframeDeltas x y).2.2.1) ∧
      q.segData = r.segData ∧
      (∀ lx' ly', lx' < r.width → ly' < r.height →
        ¬ ((p.reframeDeltas x y).1 ≤ lx' ∧
            lx' < (p.reframeDeltas x y).1 + p.width ∧
            (p.reframeDeltas x y).2.2.1 ≤ ly' ∧
            ly' < (p.reframeDeltas x y).2.2.1 + p.height) →
        r.map (ly' * r.width + lx') = 0 ∧ r.age_map (ly' * r.width + lx') = 0 ∧
          r.segId (ly' * r.width + lx') = noContinent) := by
  obtain ⟨r0, hr0, rfl⟩ := setCrustCore_elim hres
  rcases setCrustResolve_elim hr0 with ⟨hgm, -⟩ | ⟨-, -, hrf, hgq⟩
  · rw [hout] at hgm
    cases hgm
  · have hq := reframe_elim hrf
    have hwb := reframeDeltas_hbound p x y hw
    have hhb := reframeDeltas_vbound p x y hh
    obtain ⟨tx', ty', htlc, htidx⟩ := getMapIndex_some_elim hgq
    refine ⟨r0, hrf, ?_, ?_, ?_, ?_⟩
    · intro wx wy i hi
      obtain ⟨lx, ly, hlc, hidef⟩ := getMapIndex_some_elim hi
      obtain ⟨-, -, hxw, hyh⟩ := getLocal_some p wx wy lx ly hlc
      have hres2 : r0.getLocal wx wy =
          some ((p.reframeDeltas x y).1 + lx, (p.reframeDeltas x y).2.2.1 + ly) := by
        rw [hq]
        exact reframed_getLocal_some p _ _ _ _ hl ht hwb hhb wx wy lx ly hlc
      have hfresh := by
        rw [hq] at htlc
        exact (reframed_fresh_vals p _ _ _ _ hl ht hwb hhb x y tx' ty'
          (getMapIndex_none_elim hout) htlc).1
      have hne : ((p.reframeDeltas x y).2.2.1 + ly) * r0.width +
          ((p.reframeDeltas x y).1 + lx) ≠ index := by
        intro heq
        rw [htidx] at heq
        rw [hq, reframed_width] at heq
        have htx'lt : tx' < p.width + (p.reframeDeltas x y).1 + (p.reframeDeltas x y).2.1 := by
          have h7 := getLocal_some _ x y tx' ty' (hq ▸ htlc)
          rw [reframed_width] at h7
          exact h7.2.2.1
        obtain ⟨hce, hre⟩ := index_coords_inj _ _ _ _ _ (by omega) htx'lt heq
        exact hfresh (by omega)
      refine ⟨((p.reframeDeltas x y).2.2.1 + ly) * r0.width +
        ((p.reframeDeltas x y).1 + lx), ?_, ?_, ?_⟩
      · rw [setCrustAt_getMapIndex]
        exact getMapIndex_of_getLocal hres2
      · have hv := (reframed_preserved_vals p (p.reframeDeltas x y).1
          (p.reframeDeltas x y).2.1 (p.reframeDeltas x y).2.2.1
          (p.reframeDeltas x y).2.2.2 lx ly hxw hyh).1
        rw [setCrustAt_map, Function.update_noteq hne, hq, reframed_width,
          hv, hidef]
      · have hv := (reframed_preserved_vals p (p.reframeDeltas x y).1
          (p.reframeDeltas x y).2.1 (p.reframeDeltas x y).2.2.1
          (p.reframeDeltas x y).2.2.2 lx ly hxw hyh).2.1
        rw [setCrustAt_age_map, Function.update_noteq hne, hq, reframed_width,
          hv, hidef]
    · intro s
      rw [hq, reframed_segData]
    · rw [hq]
      rfl
    · intro lx' ly' hxlt hylt hnotwin
      rw [hq, reframed_width] at hxlt
      refine ⟨?_, ?_, ?_⟩
      · rw [hq, reframed_width, reframed_map,
          regrid_at _ _ _ _ _ _ _ _ _ hxlt, if_neg hnotwin]
      · rw [hq, reframed_width, reframed_age_map,
          regrid_at _ _ _ _ _ _ _ _ _ hxlt, if_neg hnotwin]
      · rw [hq, reframed_width, reframed_segId,
          regrid_at _ _ _ _ _ _ _ _ _ hxlt, if_neg hnotwin]

/-- Witness for C4 at a concrete input: `setCrust(6, 3, 2, 9)` on the S1
plate reframes, and the crust cell at world `(3, 3)` keeps its height and
age at its new position. -/
theorem setCrust_reframe_preserves_witness :
    plateA.getMapIndex 6 3 = none ∧
    ∃ qi : Plate × ℕ, plateA.setCrustCore 6 3 2 9 = some qi ∧
      ∃ r, plateA.reframe 6 3 = some r ∧
        ∃ i', qi.1.getMapIndex 3 3 = some i' ∧
          qi.1.map i' = plateA.map 4 ∧ qi.1.age_map i' = plateA.age_map 4 := by
  have h : (plateA.setCrustCore 6 3 2 9).isSome = true := by
    with_unfolding_all decide
  refine ⟨by decide, (plateA.setCrustCore 6 3 2 9).get h,
    (Option.some_get h).symm, ?_⟩
  have main := setCrust_reframe_preserves plateA 6 3 2 9
    ((plateA.setCrustCore 6 3 2 9).get h).1 ((plateA.setCrustCore 6 3 2 9).get h).2
    (by decide) (by decide) (by decide) (by decide) (by decide)
    (Option.some_get h).symm
  obtain ⟨r, hr, hpres, -, -, -⟩ := main
  exact ⟨r, hr, hpres 3 3 4 (by decide)⟩

/-! Lemmas on the aggregation transfer loop. -/

theorem getCrust_nonneg (p : Plate) (x y : ℕ) (hnn : ∀ i, 0 ≤ p.map i) :
    0 ≤ p.getCrust x y := by
  unfold Plate.getCrust
  cases p.getMapIndex x y with
  | none => exact le_refl 0
  | some i => exact hnn i

theorem setCrust_elim {p : Plate} {x y : ℕ} {z : ℚ} {t : ℕ} {q : Plate}
    (h : p.setCrust x y z t = some q) :
    ∃ index, p.setCrustCore x y z t = some (q, index) := by
  unfold Plate.setCrust at h
  obtain ⟨s, hs, h1⟩ := Option.map_eq_some'.mp h
  refine ⟨s.2, ?_⟩
  rw [← h1]
  exact hs

theorem addCrustByCollision_spec (b : Plate) (x y : ℕ) (z : ℚ) (time : ℕ)
    (ac : ℕ) (b' : Plate) (hwf : PlateWF b) (hz : 0 < z)
    (hres : b.addCrustByCollision x y z time ac = some b') :
    b'.mass = b.mass + z ∧ PlateWF b' ∧ b'.wdW = b.wdW ∧ b'.wdH = b.wdH := by
  unfold Plate.addCrustByCollision at hres
  cases hsc : b.setCrust x y (b.getCrust x y + z) time with
  | none =>
    rw [hsc] at hres
    exact absurd hres (by simp)
  | some q =>
    rw [hsc] at hres
    simp only at hres
    cases hloc : q.getLocal x y with
    | none =>
      rw [hloc] at hres
      exact absurd hres (by simp)
    | some c =>
      rw [hloc] at hres
      simp only at hres
      injection hres with hb'
      obtain ⟨index, hcore⟩ := setCrust_elim hsc
      obtain ⟨hmass, hwfq, hW, hH⟩ :=
        setCrustCore_mass b x y (b.getCrust x y + z) time q index hwf hcore
      have hgepos : 0 < b.getCrust x y + z :=
        lt_of_lt_of_le hz (by
          have := getCrust_nonneg b x y hwf.1
          linarith)
      have hmax : max (b.getCrust x y + z) 0 = b.getCrust x y + z :=
        max_eq_left hgepos.le
      rw [hmax] at hmass
      have hqmass : q.mass = b.mass + z := by
        rw [hmass]
        ring
      rw [← hb']
      exact ⟨hqmass, hwfq, hW, hH⟩

theorem aggStep_frame (seg ac wx1 wy1 lx ly : ℕ) (st st' : Plate × Plate)
    (c : ℕ × ℕ) (h : aggStep seg ac wx1 wy1 lx ly st c = some st') :
    st'.1.wdW = st.1.wdW ∧ st'.1.wdH = st.1.wdH ∧
    st'.1.left = st.1.left ∧ st'.1.top = st.1.top ∧
    st'.1.width = st.1.width ∧ st'.1.height = st.1.height ∧
    st'.1.segId = st.1.segId ∧ st'.1.segData = st.1.segData := by
  simp only [aggStep] at h
  split_ifs at h with hc
  · cases hab : (st.2).addCrustByCollision (wx1 + c.1 - lx) (wy1 + c.2 - ly)
        (st.1.map (c.2 * st.1.width + c.1)) (st.1.age_map (c.2 * st.1.width + c.1)) ac with
    | none =>
      rw [hab] at h
      exact absurd h (by simp)
    | some b' =>
      rw [hab] at h
      simp only at h
      injection h with h2
      rw [← h2]
      exact ⟨rfl, rfl, rfl, rfl, rfl, rfl, rfl, rfl⟩
  · injection h with h2
    rw [← h2]
    exact ⟨rfl, rfl, rfl, rfl, rfl, rfl, rfl, rfl⟩

theorem aggStep_spec (seg ac wx1 wy1 lx ly : ℕ) (st st' : Plate × Plate)
    (c : ℕ × ℕ) (hwf : PlateWF st.2)
    (h : aggStep seg ac wx1 wy1 lx ly st c = some st') :
    AggInv st st' ∧ PlateWF st'.2 ∧
    (st.1.segId (c.2 * st.1.width + c.1) = seg ∧
        0 < st.1.map (c.2 * st.1.width + c.1) →
      st'.1.map (c.2 * st.1.width + c.1) = 0) := by
  simp only [aggStep] at h
  split_ifs at h with hc
  · cases hab : (st.2).addCrustByCollision (wx1 + c.1 - lx) (wy1 + c.2 - ly)
        (st.1.map (c.2 * st.1.width + c.1)) (st.1.age_map (c.2 * st.1.width + c.1)) ac with
    | none =>
      rw [hab] at h
      exact absurd h (by simp)
    | some b' =>
      rw [hab] at h
      simp only at h
      injection h with h2
      obtain ⟨hbm, hbwf, hbW, hbH⟩ :=
        addCrustByCollision_spec st.2 _ _ _ _ ac b' hwf hc.2 hab
      rw [← h2]
      refine ⟨⟨?_, ?_, hbW, hbH, rfl, rfl, rfl, rfl, rfl, rfl, rfl, rfl, ?_⟩,
        hbwf, ?_⟩
      · show st.1.mass - st.1.map (c.2 * st.1.width + c.1) + b'.mass =
          st.1.mass + st.2.mass
        rw [hbm]
        ring
      · show st.1.mass - st.1.map (c.2 * st.1.width + c.1) ≤ st.1.mass
        have := hc.2
        linarith
      · intro i
        rcases eq_or_ne i (c.2 * st.1.width + c.1) with rfl | hne
        · refine Or.inr ?_
          show Function.update st.1.map (c.2 * st.1.width + c.1) 0
            (c.2 * st.1.width + c.1) = 0
          rw [Function.update_same]
        · refine Or.inl ?_
          show Function.update st.1.map (c.2 * st.1.width + c.1) 0 i = st.1.map i
          rw [Function.update_noteq hne]
      · intro hcond
        show Function.update st.1.map (c.2 * st.1.width + c.1) 0
          (c.2 * st.1.width + c.1) = 0
        rw [Function.update_same]
  · injection h with h2
    rw [← h2]
    refine ⟨⟨rfl, le_refl _, rfl, rfl, rfl, rfl, rfl, rfl, rfl, rfl, rfl, rfl,
      fun i => Or.inl rfl⟩, hwf, ?_⟩
    intro hcond
    exact absurd hcond hc

theorem AggInv_refl (st : Plate × Plate) : AggInv st st :=
  ⟨rfl, le_refl _, rfl, rfl, rfl, rfl, rfl, rfl, rfl, rfl, rfl, rfl,
    fun _ => Or.inl rfl⟩

theorem AggInv_trans {s1 s2 s3 : Plate × Plate} (h12 : AggInv s1 s2)
    (h23 : AggInv s2 s3) : AggInv s1 s3 := by
  obtain ⟨m12, le12, bW12, bH12, aW12, aH12, l12, t12, w12, hh12, id12, sd12, mp12⟩ := h12
  obtain ⟨m23, le23, bW23, bH23, aW23, aH23, l23, t23, w23, hh23, id23, sd23, mp23⟩ := h23
  refine ⟨by linarith, le23.trans le12, bW23.trans bW12, bH23.trans bH12,
    aW23.trans aW12, aH23.trans aH12, l23.trans l12, t23.trans t12,
    w23.trans w12, hh23.trans hh12, id23.trans id12, sd23.trans sd12, ?_⟩
  intro i
  rcases mp23 i with h | h
  · rw [h]
    exact mp12 i
  · exact Or.inr h

theorem aggFold_nil (seg ac wx1 wy1 lx ly : ℕ) (st0 : Option (Plate × Plate)) :
    aggFold seg ac wx1 wy1 lx ly [] st0 = st0 := rfl

theorem aggFold_cons (seg ac wx1 wy1 lx ly : ℕ) (c : ℕ × ℕ)
    (cs : List (ℕ × ℕ)) (st0 : Option (Plate × Plate)) :
    aggFold seg ac wx1 wy1 lx ly (c :: cs) st0 =
      aggFold seg ac wx1 wy1 lx ly cs
        (st0.bind fun st => aggStep seg ac wx1 wy1 lx ly st c) := rfl

theorem aggFold_none_eq (seg ac wx1 wy1 lx ly : ℕ) (cs : List (ℕ × ℕ)) :
    aggFold seg ac wx1 wy1 lx ly cs none = none := by
  induction cs with
  | nil => rfl
  | cons c cs ih =>
    rw [aggFold_cons]
    exact ih

theorem aggFold_spec (seg ac wx1 wy1 lx ly : ℕ) (cs : List (ℕ × ℕ)) :
    ∀ st st' : Plate × Plate, PlateWF st.2 →
      aggFold seg ac wx1 wy1 lx ly cs (some st) = some st' →
      AggInv st st' ∧ PlateWF st'.2 ∧
        ∀ c ∈ cs, (st.1.segId (c.2 * st.1.width + c.1) = seg ∧
            0 < st.1.map (c.2 * st.1.width + c.1)) →
          st'.1.map (c.2 * st.1.width + c.1) = 0 := by
  induction cs with
  | nil =>
    intro st st' hwf h
    rw [aggFold_nil] at h
    injection h with h2
    subst h2
    exact ⟨AggInv_refl st, hwf, fun c hc => absurd hc (List.not_mem_nil c)⟩
  | cons c cs ih =>
    intro st st' hwf h
    rw [aggFold_cons] at h
    cases hstep : aggStep seg ac wx1 wy1 lx ly st c with
    | none =>
      rw [show ((some st).bind fun s => aggStep seg ac wx1 wy1 lx ly s c) = none
        from hstep, aggFold_none_eq] at h
      cases h
    | some st1 =>
      rw [show ((some st).bind fun s => aggStep seg ac wx1 wy1 lx ly s c) = some st1
        from hstep] at h
      obtain ⟨inv1, hwf1, hzero1⟩ := aggStep_spec seg ac wx1 wy1 lx ly st st1 c hwf hstep
      obtain ⟨inv2, hwf2, hzero2⟩ := ih st1 st' hwf1 h
      refine ⟨AggInv_trans inv1 inv2, hwf2, ?_⟩
      obtain ⟨-, -, -, -, -, -, -, -, w1, -, id1, -, mp1⟩ := inv1
      obtain ⟨-, -, -, -, -, -, -, -, -, -, -, -, mp2⟩ := inv2
      intro c' hc' hcond
      rcases List.mem_cons.mp hc' with rfl | hmem
      · have h0 := hzero1 hcond
        rcases mp2 (c'.2 * st.1.width + c'.1) with he | he
        · rw [he]
          exact h0
        · exact he
      · have hcondw : c'.2 * st1.1.width + c'.1 = c'.2 * st.1.width + c'.1 := by
          rw [w1]
        rcases mp1 (c'.2 * st.1.width + c'.1) with he | he
        · have hcond1 : st1.1.segId (c'.2 * st1.1.width + c'.1) = seg ∧
              0 < st1.1.map (c'.2 * st1.1.width + c'.1) := by
            rw [hcondw, id1, he]
            exact hcond
          have h3 := hzero2 c' hmem hcond1
          rw [hcondw] at h3
          exact h3
        · rcases mp2 (c'.2 * st.1.width + c'.1) with he2 | he2
          · rw [he2]
            exact he
          · exact he2

theorem aggregateCrust_elim {a b : Plate} {wx wy : ℕ} {r : Plate × Plate × ℚ}
    (hres : a.aggregateCrust b wx wy = some r) :
    ∃ lc : ℕ × ℕ, a.getLocal wx wy = some lc ∧
      (((a.segData (a.segId (lc.2 * a.width + lc.1))).isEmpty = true ∧
        r = (a, b, 0)) ∨
      (¬ (a.segData (a.segId (lc.2 * a.width + lc.1))).isEmpty = true ∧
        ∃ bindex st,
          b.getMapIndex wx wy = some bindex ∧
          aggFold (a.segId (lc.2 * a.width + lc.1)) (b.segId bindex)
            (wx + a.wdW) (wy + a.wdH) lc.1 lc.2
            (segCells (a.segData (a.segId (lc.2 * a.width + lc.1))))
            (some (a, b)) = some st ∧
          r = (aggMark st.1 (a.segId (lc.2 * a.width + lc.1)), st.2,
            a.mass - st.1.mass))) := by
  unfold Plate.aggregateCrust at hres
  cases hlc : a.getLocal wx wy with
  | none =>
    rw [hlc] at hres
    exact absurd hres (by simp)
  | some lc =>
    rw [hlc] at hres
    simp only at hres
    split_ifs at hres with hemp
    · injection hres with h2
      exact ⟨lc, rfl, Or.inl ⟨hemp, h2.symm⟩⟩
    · cases hbi : b.getMapIndex wx wy with
      | none =>
        rw [hbi] at hres
        exact absurd hres (by simp)
      | some bindex =>
        rw [hbi] at hres
        simp only at hres
        cases hfold : aggFold (a.segId (lc.2 * a.width + lc.1)) (b.segId bindex)
            (wx + a.wdW) (wy + a.wdH) lc.1 lc.2
            (segCells (a.segData (a.segId (lc.2 * a.width + lc.1))))
            (some (a, b)) with
        | none =>
          rw [hfold] at hres
          exact absurd hres (by simp)
        | some st =>
          rw [hfold] at hres
          simp only at hres
          injection hres with h2
          exact ⟨lc, rfl, Or.inr ⟨hemp, bindex, st, rfl, hfold, h2.symm⟩⟩

/-- C1: `aggregateCrust` transfers crust without creating or destroying
mass: the returned amount is nonnegative, the sum of the two plates' masses
is exactly preserved (the embedding computes with exact rationals, so the
`ε · area` float tolerance is met with slack), the transferred amount lands
on the destination plate's mass, and on the source plate heights are only
ever zeroed — in particular every cell of a non-empty continent that
carried crust is zeroed. -/
theorem aggregateCrust_mass_transfer (a b : Plate) (wx wy : ℕ)
    (r : Plate × Plate × ℚ) (hwfb : PlateWF b)
    (hres : a.aggregateCrust b wx wy = some r) :
    0 ≤ r.2.2 ∧
    r.1.mass + r.2.1.mass = a.mass + b.mass ∧
    r.2.1.mass = b.mass + r.2.2 ∧
    (∀ i, r.1.map i = a.map i ∨ r.1.map i = 0) ∧
    (∀ lx ly, a.getLocal wx wy = some (lx, ly) →
      ¬ (a.segData (a.segId (ly * a.width + lx))).isEmpty = true →
      ∀ c ∈ segCells (a.segData (a.segId (ly * a.width + lx))),
        a.segId (c.2 * a.width + c.1) = a.segId (ly * a.width + lx) →
        0 < a.map (c.2 * a.width + c.1) →
        r.1.map (c.2 * a.width + c.1) = 0) := by
  obtain ⟨lc, hlc, hcase⟩ := aggregateCrust_elim hres
  rcases hcase with ⟨hemp, rfl⟩ | ⟨hemp, bindex, st, hbi, hfold, rfl⟩
  · refine ⟨le_refl 0, by ring, by ring, fun i => Or.inl rfl, ?_⟩
    intro lx ly hlc' hne
    rw [hlc] at hlc'
    injection hlc' with hlc2
    obtain ⟨h3, h4⟩ := Prod.mk.injEq .. |>.mp hlc2
    rw [← h3, ← h4] at hne
    exact absurd hemp hne
  · obtain ⟨⟨mcons, mle, -, -, -, -, -, -, -, -, -, -, mp⟩, hwfst, hzero⟩ :=
      aggFold_spec _ _ _ _ lc.1 lc.2 _ (a, b) st hwfb hfold
    refine ⟨?_, ?_, ?_, ?_, ?_⟩
    · show 0 ≤ a.mass - st.1.mass
      have : st.1.mass ≤ a.mass := mle
      linarith
    · show (aggMark st.1 _).mass + st.2.mass = a.mass + b.mass
      have hm : (aggMark st.1 (a.segId (lc.2 * a.width + lc.1))).mass =
          st.1.mass := rfl
      rw [hm]
      exact mcons
    · show st.2.mass = b.mass + (a.mass - st.1.mass)
      have : st.1.mass + st.2.mass = a.mass + b.mass := mcons
      linarith
    · intro i
      show (aggMark st.1 _).map i = a.map i ∨ (aggMark st.1 _).map i = 0
      have hm : (aggMark st.1 (a.segId (lc.2 * a.width + lc.1))).map = st.1.map := rfl
      rw [hm]
      exact mp i
    · intro lx ly hlc' hne c hc hcseg hcmap
      rw [hlc] at hlc'
      injection hlc' with hlc2
      obtain ⟨h3, h4⟩ := Prod.mk.injEq .. |>.mp hlc2
      have hm : (aggMark st.1 (a.segId (lc.2 * a.width + lc.1))).map = st.1.map := rfl
      show (aggMark st.1 _).map (c.2 * a.width + c.1) = 0
      rw [hm]
      have hc' : c ∈ segCells (a.segData (a.segId (lc.2 * a.width + lc.1))) := by
        rw [h3, h4]
        exact hc
      exact hzero c hc' ⟨by rw [h3, h4]; exact hcseg, hcmap⟩

/-- Witness for C1 at a concrete input (spec scenario S4): aggregating the
single-cell continent of the S1 plate onto an all-ocean plate moves mass
`1` and conserves the total. -/
theorem aggregateCrust_mass_transfer_witness :
    PlateWF plateB ∧
    ∃ r, plateA.aggregateCrust plateB 3 3 = some r ∧
      0 ≤ r.2.2 ∧ r.1.mass + r.2.1.mass = plateA.mass + plateB.mass ∧
      r.2.1.mass = plateB.mass + r.2.2 := by
  have hwfb : PlateWF plateB := by
    refine ⟨fun i => le_refl 0, ?_, ?_, ?_, ?_⟩ <;> decide
  have h : (plateA.aggregateCrust plateB 3 3).isSome = true := by
    with_unfolding_all decide
  refine ⟨hwfb, (plateA.aggregateCrust plateB 3 3).get h,
    (Option.some_get h).symm, ?_, ?_, ?_⟩
  · exact (aggregateCrust_mass_transfer plateA plateB 3 3 _ hwfb
      (Option.some_get h).symm).1
  · exact (aggregateCrust_mass_transfer plateA plateB 3 3 _ hwfb
      (Option.some_get h).symm).2.1
  · exact (aggregateCrust_mass_transfer plateA plateB 3 3 _ hwfb
      (Option.some_get h).symm).2.2.1

theorem getLocal_congr {p q : Plate} (hW : q.wdW = p.wdW) (hH : q.wdH = p.wdH)
    (hl : q.left = p.left) (ht : q.top = p.top) (hw : q.width = p.width)
    (hhh : q.height = p.height) (x y : ℕ) : q.getLocal x y = p.getLocal x y := by
  simp only [Plate.getLocal, hW, hH, hl, ht, hw, hhh]

theorem aggFold_frame (seg ac wx1 wy1 lx ly : ℕ) (cs : List (ℕ × ℕ)) :
    ∀ st st' : Plate × Plate,
      aggFold seg ac wx1 wy1 lx ly cs (some st) = some st' →
      st'.1.wdW = st.1.wdW ∧ st'.1.wdH = st.1.wdH ∧
      st'.1.left = st.1.left ∧ st'.1.top = st.1.top ∧
      st'.1.width = st.1.width ∧ st'.1.height = st.1.height ∧
      st'.1.segId = st.1.segId := by
  induction cs with
  | nil =>
    intro st st' h
    rw [aggFold_nil] at h
    injection h with h2
    subst h2
    exact ⟨rfl, rfl, rfl, rfl, rfl, rfl, rfl⟩
  | cons c cs ih =>
    intro st st' h
    rw [aggFold_cons] at h
    cases hstep : aggStep seg ac wx1 wy1 lx ly st c with
    | none =>
      rw [show ((some st).bind fun s => aggStep seg ac wx1 wy1 lx ly s c) = none
        from hstep, aggFold_none_eq] at h
      cases h
    | some st1 =>
      rw [show ((some st).bind fun s => aggStep seg ac wx1 wy1 lx ly s c) = some st1
        from hstep] at h
      obtain ⟨g1, g2, g3, g4, g5, g6, g7, -⟩ :=
        aggStep_frame seg ac wx1 wy1 lx ly st st1 c hstep
      obtain ⟨f1, f2, f3, f4, f5, f6, f7⟩ := ih st1 st' h
      exact ⟨f1.trans g1, f2.trans g2, f3.trans g3, f4.trans g4,
        f5.trans g5, f6.trans g6, f7.trans g7⟩

/-- C5: aggregation of the same continent is idempotent — after a
successful `aggregateCrust` call, repeating the call at the same world cell
returns exactly `0` and leaves both plates unchanged, because the drained
segment's `area == 0` check short-circuits. -/
theorem aggregateCrust_idempotent (a b : Plate) (wx wy : ℕ)
    (r : Plate × Plate × ℚ) (hres : a.aggregateCrust b wx wy = some r) :
    r.1.aggregateCrust r.2.1 wx wy = some (r.1, r.2.1, 0) := by
  obtain ⟨lc, hlc, hcase⟩ := aggregateCrust_elim hres
  rcases hcase with ⟨hemp, rfl⟩ | ⟨hemp, bindex, st, hbi, hfold, rfl⟩
  · show a.aggregateCrust b wx wy = some (a, b, 0)
    unfold Plate.aggregateCrust
    rw [hlc]
    dsimp only
    rw [if_pos hemp]
  · obtain ⟨fW, fH, fl, ft', fw, fh, fid⟩ :=
      aggFold_frame _ _ _ _ lc.1 lc.2 _ (a, b) st hfold
    have hW' : (aggMark st.1 (a.segId (lc.2 * a.width + lc.1))).wdW = a.wdW := fW
    have hH' : (aggMark st.1 (a.segId (lc.2 * a.width + lc.1))).wdH = a.wdH := fH
    have hl' : (aggMark st.1 (a.segId (lc.2 * a.width + lc.1))).left = a.left := fl
    have ht2 : (aggMark st.1 (a.segId (lc.2 * a.width + lc.1))).top = a.top := ft'
    have hw' : (aggMark st.1 (a.segId (lc.2 * a.width + lc.1))).width = a.width := fw
    have hh2 : (aggMark st.1 (a.segId (lc.2 * a.width + lc.1))).height = a.height := fh
    have hloc' : (aggMark st.1 (a.segId (lc.2 * a.width + lc.1))).getLocal wx wy =
        some lc := by
      rw [getLocal_congr hW' hH' hl' ht2 hw' hh2 wx wy]
      exact hlc
    have hseg' : (aggMark st.1 (a.segId (lc.2 * a.width + lc.1))).segId
        (lc.2 * (aggMark st.1 (a.segId (lc.2 * a.width + lc.1))).width + lc.1) =
        a.segId (lc.2 * a.width + lc.1) := by
      show st.1.segId (lc.2 * st.1.width + lc.1) = a.segId (lc.2 * a.width + lc.1)
      rw [fid, fw]
    have hempty' : ((aggMark st.1 (a.segId (lc.2 * a.width + lc.1))).segData
        ((aggMark st.1 (a.segId (lc.2 * a.width + lc.1))).segId
          (lc.2 * (aggMark st.1 (a.segId (lc.2 * a.width + lc.1))).width + lc.1))).isEmpty
        = true := by
      rw [hseg']
      show ((Function.update st.1.segData (a.segId (lc.2 * a.width + lc.1))
        ((st.1.segData (a.segId (lc.2 * a.width + lc.1))).markNonExistent))
        (a.segId (lc.2 * a.width + lc.1))).isEmpty = true
      rw [Function.update_same]
      rfl
    show (aggMark st.1 (a.segId (lc.2 * a.width + lc.1))).aggregateCrust st.2 wx wy =
      some (aggMark st.1 (a.segId (lc.2 * a.width + lc.1)), st.2, 0)
    unfold Plate.aggregateCrust
    rw [hloc']
    dsimp only
    rw [if_pos hempty']

/-- Witness for C5 at a concrete input (spec scenario S4): after the first
aggregation, the second call returns exactly `0` and changes nothing. -/
theorem aggregateCrust_idempotent_witness :
    ∃ r, plateA.aggregateCrust plateB 3 3 = some r ∧
      r.1.aggregateCrust r.2.1 3 3 = some (r.1, r.2.1, 0) := by
  have h : (plateA.aggregateCrust plateB 3 3).isSome = true := by
    with_unfolding_all decide
  exact ⟨(plateA.aggregateCrust plateB 3 3).get h, (Option.some_get h).symm,
    aggregateCrust_idempotent plateA plateB 3 3 _ (Option.some_get h).symm⟩
